import Mathlib

/-
Verification of the bounded notification log of blicero/headlines
(web/static/interact.js, functions msg_clear and msg_add around the
constant max_msg_cnt).

The log is the sequence of table rows of the DOM element #msg_tbl.
We embed that state as a Lean list of structured rows, oldest first,
which is exactly the order the rows appear in the table.  The jQuery
collection built by the selector in msg_add is a static snapshot, so
removing rows[i] after rows[0] .. rows[i-1] have been removed deletes
the current front of the live table; the loop is therefore embedded as
a recursion on the counter cnt that drops the head of the live list at
each iteration.
-/

namespace Headlines

/-- A JavaScript value as it is passed for the msg and level arguments
of msg_add by the various call sites: a number (the default level is
the number 1, unrate_item passes 2), a string (many call sites pass
string tags or response messages), or undefined (a missing argument). -/
inductive JSVal where
  | num (n : Int)
  | str (s : String)
  | undef
deriving DecidableEq, Repr

/-- How a JSVal prints inside a template literal such as the row string
of msg_add: numbers print as decimal text and undefined prints
literally as the text undefined. -/
def JSVal.render : JSVal → String
  | .num n => toString n
  | .str s => s
  | .undef => "undefined"

/-- One row of the #msg_tbl table, as built by msg_add: a timestamp
cell (new Date() at call time, abstracted as a Nat clock value), a
level cell and a message cell.  The fourth cell of the row template is
always empty and carries no data. -/
structure MsgRow where
  timestamp : Nat
  level : JSVal
  message : JSVal
deriving DecidableEq, Repr

/-- const max_msg_cnt = 5 -/
def max_msg_cnt : Nat := 5

/-- The row template of msg_add, with the clock value that new Date()
produced at function entry. -/
def mk_row (now : Nat) (level msg : JSVal) : MsgRow :=
  { timestamp := now, level := level, message := msg }

/-- The HTML text of one row, following the template literal in
msg_add. -/
def render_row (r : MsgRow) : String :=
  "<tr><td>" ++ toString r.timestamp ++ "</td><td>" ++ r.level.render
    ++ "</td><td>" ++ r.message.render ++ "</td><td></td></tr>"

/-- The innerHTML of #msg_tbl determined by its rows. -/
def render_tbl (tbl : List MsgRow) : String :=
  String.join (tbl.map render_row)

/-- msg_clear: assigns the empty string to the innerHTML of #msg_tbl,
removing every row. -/
def msg_clear (tbl : List MsgRow) : List MsgRow :=
  []

/-- The while loop of msg_add.  The JS loop keeps the counter cnt,
initially the length of the row snapshot, and while cnt is at least
max_msg_cnt it removes the front row of the live table and decrements
cnt.  When the guard holds, cnt is at least 5, so cnt is a successor
and the decrement matches the structural recursion below; when cnt is
0 the guard is false and the loop exits, as in the first equation. -/
def msg_add_evict : Nat → List MsgRow → List MsgRow
  | 0, live => live
  | cnt + 1, live =>
    if max_msg_cnt ≤ cnt + 1 then msg_add_evict cnt live.tail
    else live

/-- msg_add: builds the row from the current clock, the level and the
message, runs the eviction loop with cnt starting at the number of
rows, then appends the new row at the end of the table. -/
def msg_add (tbl : List MsgRow) (msg level : JSVal) (now : Nat) : List MsgRow :=
  msg_add_evict tbl.length tbl ++ [mk_row now level msg]

/-- msg_add called with the level argument omitted: the declared
default parameter value, the number 1, is used. -/
def msg_add_default (tbl : List MsgRow) (msg : JSVal) (now : Nat) : List MsgRow :=
  msg_add tbl msg (.num 1) now

/-- The failure branch of the response callback of rate_item: it calls
msg_add(res.message) with the level argument omitted. -/
def rate_item_on_failure (tbl : List MsgRow) (message : JSVal) (now : Nat) : List MsgRow :=
  msg_add_default tbl message now

/-- Every live table state observable during the eviction loop of one
msg_add call: the state at loop entry and the state after each removal
of a front row. -/
def msg_add_evict_states : Nat → List MsgRow → List (List MsgRow)
  | 0, live => [live]
  | cnt + 1, live =>
    if max_msg_cnt ≤ cnt + 1 then live :: msg_add_evict_states cnt live.tail
    else [live]

/-- Every table state observable during one msg_add call: the states
of the eviction loop followed by the final state after the new row is
appended. -/
def msg_add_states (tbl : List MsgRow) (msg level : JSVal) (now : Nat) :
    List (List MsgRow) :=
  msg_add_evict_states tbl.length tbl ++ [msg_add tbl msg level now]

/-- One recorded call of msg_add: its message and level arguments and
the clock value at the call. -/
structure AddCall where
  msg : JSVal
  level : JSVal
  now : Nat
deriving DecidableEq, Repr

/-- The row an AddCall creates. -/
def row_of (c : AddCall) : MsgRow :=
  mk_row c.now c.level c.msg

/-- Running a sequence of msg_add calls on the empty table. -/
def run_adds (calls : List AddCall) : List MsgRow :=
  calls.foldl (fun tbl c => msg_add tbl c.msg c.level c.now) []

/-- The level value the spec calls informational: the numeric default. -/
def info_level : JSVal := .num 1

/-- The level value unrate_item passes on failure: the number 2. -/
def error_level : JSVal := .num 2

/- Helper lemmas about the eviction loop. -/

/-- The eviction loop drops exactly the first cnt - (max_msg_cnt - 1)
rows of the live table (truncated subtraction: no row when cnt is
below max_msg_cnt). -/
theorem msg_add_evict_eq_drop (cnt : Nat) (live : List MsgRow) :
    msg_add_evict cnt live = live.drop (cnt - (max_msg_cnt - 1)) := by
  induction cnt generalizing live with
  | zero => simp [msg_add_evict]
  | succ n ih =>
    rw [msg_add_evict]
    by_cases h : max_msg_cnt ≤ n + 1
    · rw [if_pos h, ih, ← List.drop_one, List.drop_drop]
      have h4 : max_msg_cnt - 1 ≤ n := by
        simp only [max_msg_cnt] at h ⊢
        omega
      congr 1
      omega
    · rw [if_neg h]
      have h0 : n + 1 - (max_msg_cnt - 1) = 0 := by
        simp only [max_msg_cnt] at h ⊢
        omega
      rw [h0, List.drop_zero]

/-- Closed form of msg_add: the surviving rows are the suffix of the
old table past the evicted front rows, and the new row sits at the
end. -/
theorem msg_add_eq (tbl : List MsgRow) (msg level : JSVal) (now : Nat) :
    msg_add tbl msg level now =
      tbl.drop (tbl.length - (max_msg_cnt - 1)) ++ [mk_row now level msg] := by
  rw [msg_add, msg_add_evict_eq_drop]

/-- The length of the table after one msg_add call. -/
theorem length_msg_add (tbl : List MsgRow) (msg level : JSVal) (now : Nat) :
    (msg_add tbl msg level now).length = min (tbl.length + 1) max_msg_cnt := by
  rw [msg_add_eq, List.length_append, List.length_drop]
  simp only [List.length_singleton, max_msg_cnt]
  omega

/-- The table length never exceeds max_msg_cnt after a msg_add call. -/
theorem length_msg_add_le (tbl : List MsgRow) (msg level : JSVal) (now : Nat) :
    (msg_add tbl msg level now).length ≤ max_msg_cnt := by
  rw [length_msg_add]
  simp only [max_msg_cnt]
  omega

/-- Every state the eviction loop passes through is an iterated tail of
the state at loop entry, so its length is bounded by the entry length. -/
theorem msg_add_evict_states_length_le (cnt : Nat) (live : List MsgRow) :
    ∀ s ∈ msg_add_evict_states cnt live, s.length ≤ live.length := by
  induction cnt generalizing live with
  | zero =>
    intro s hs
    simp only [msg_add_evict_states, List.mem_singleton] at hs
    simp [hs]
  | succ n ih =>
    intro s hs
    rw [msg_add_evict_states] at hs
    by_cases h : max_msg_cnt ≤ n + 1
    · rw [if_pos h, List.mem_cons] at hs
      rcases hs with rfl | hs
      · exact Nat.le_refl _
      · exact Nat.le_trans (ih live.tail s hs) (List.length_tail live ▸ Nat.sub_le _ _)
    · rw [if_neg h, List.mem_singleton] at hs
      simp [hs]

/-- Lifting the per-call bound through a sequence of calls. -/
theorem foldl_msg_add_length_le (calls : List AddCall) (tbl : List MsgRow)
    (h : tbl.length ≤ max_msg_cnt) :
    (calls.foldl (fun t c => msg_add t c.msg c.level c.now) tbl).length ≤ max_msg_cnt := by
  induction calls generalizing tbl with
  | nil => exact h
  | cons c cs ih =>
    rw [List.foldl_cons]
    exact ih (msg_add tbl c.msg c.level c.now) (length_msg_add_le _ _ _ _)

/-- C1: for every sequence of msg_add calls starting from an empty
log, after each call the number of entries in the log is at most
max_msg_cnt = 5.  The quantification over all call sequences covers
the state after every individual call of any longer sequence. -/
theorem C1_capacity_invariant (calls : List AddCall) :
    (run_adds calls).length ≤ max_msg_cnt := by
  rw [run_adds]
  exact foldl_msg_add_length_le calls [] (by simp [max_msg_cnt])

/-- C2: on a log holding exactly 5 entries, one msg_add call removes
exactly the oldest entry and yields the remaining four old entries in
their original relative order followed by the new entry; the entries
and their level fields are arbitrary, so the evicted entry does not
depend on any level. -/
theorem C2_fifo_eviction (tbl : List MsgRow) (msg level : JSVal) (now : Nat)
    (h : tbl.length = max_msg_cnt) :
    msg_add tbl msg level now = tbl.tail ++ [mk_row now level msg] := by
  rw [msg_add_eq, h]
  have : max_msg_cnt - (max_msg_cnt - 1) = 1 := by simp [max_msg_cnt]
  rw [this, List.drop_one]

/-- C2 witness: the FIFO eviction theorem applied to a concrete full
log of five rows with mixed levels. -/
theorem C2_fifo_eviction_witness :
    msg_add
      [⟨0, .num 1, .str "a"⟩, ⟨1, .num 2, .str "b"⟩, ⟨2, .num 1, .str "c"⟩,
       ⟨3, .num 2, .str "d"⟩, ⟨4, .num 1, .str "e"⟩]
      (.str "f") (.num 2) 5 =
      [⟨1, .num 2, .str "b"⟩, ⟨2, .num 1, .str "c"⟩, ⟨3, .num 2, .str "d"⟩,
       ⟨4, .num 1, .str "e"⟩, mk_row 5 (.num 2) (.str "f")] :=
  C2_fifo_eviction
    [⟨0, .num 1, .str "a"⟩, ⟨1, .num 2, .str "b"⟩, ⟨2, .num 1, .str "c"⟩,
     ⟨3, .num 2, .str "d"⟩, ⟨4, .num 1, .str "e"⟩]
    (.str "f") (.num 2) 5 (by decide)

/-- C3: a msg_add call on a log of exactly 5 entries re-establishes
size 5 on return, and every table state observable during the call --
the loop-entry state, each state after a removal, and the final state
after the insertion -- holds at most 5 entries, so a state of 6
entries is never observable, even transiently: the eviction runs
before the insertion. -/
theorem C3_idempotent_capacity (tbl : List MsgRow) (msg level : JSVal) (now : Nat)
    (h : tbl.length = max_msg_cnt) :
    (msg_add tbl msg level now).length = max_msg_cnt ∧
      ∀ s ∈ msg_add_states tbl msg level now, s.length ≤ max_msg_cnt := by
  constructor
  · rw [length_msg_add, h]
    simp [max_msg_cnt]
  · intro s hs
    rw [msg_add_states, List.mem_append, List.mem_singleton] at hs
    rcases hs with hs | rfl
    · exact Nat.le_trans (msg_add_evict_states_length_le tbl.length tbl s hs) (Nat.le_of_eq h)
    · rw [length_msg_add, h]
      simp [max_msg_cnt]

/-- C3 witness: the idempotent-capacity theorem applied to a concrete
full log of five rows. -/
theorem C3_idempotent_capacity_witness :
    (msg_add
        [⟨0, .num 1, .str "a"⟩, ⟨1, .num 2, .str "b"⟩, ⟨2, .num 1, .str "c"⟩,
         ⟨3, .num 2, .str "d"⟩, ⟨4, .num 1, .str "e"⟩]
        (.str "f") (.num 2) 5).length = max_msg_cnt ∧
      ∀ s ∈ msg_add_states
          [⟨0, .num 1, .str "a"⟩, ⟨1, .num 2, .str "b"⟩, ⟨2, .num 1, .str "c"⟩,
           ⟨3, .num 2, .str "d"⟩, ⟨4, .num 1, .str "e"⟩]
          (.str "f") (.num 2) 5, s.length ≤ max_msg_cnt :=
  C3_idempotent_capacity
    [⟨0, .num 1, .str "a"⟩, ⟨1, .num 2, .str "b"⟩, ⟨2, .num 1, .str "c"⟩,
     ⟨3, .num 2, .str "d"⟩, ⟨4, .num 1, .str "e"⟩]
    (.str "f") (.num 2) 5 (by decide)

/-- C4: three msg_add calls on the empty log yield exactly the three
rows in call order, and in general one msg_add call yields a suffix of
the old table, in its original order, with the new row appended at the
end, so entries appear in the order the calls completed with no
re-sorting. -/
theorem C4_order_preservation :
    (∀ A B C : AddCall, run_adds [A, B, C] = [row_of A, row_of B, row_of C]) ∧
      ∀ (tbl : List MsgRow) (msg level : JSVal) (now : Nat),
        msg_add tbl msg level now =
          tbl.drop (tbl.length - (max_msg_cnt - 1)) ++ [mk_row now level msg] := by
  constructor
  · intro A B C
    rfl
  · intro tbl msg level now
    exact msg_add_eq tbl msg level now

/-- C5: the six-append scenario of the spec: appending a, b, c, d, e,
f with alternating informational and error levels to the empty log
leaves exactly the rows b, c, d, e, f in that order, size 5, with the
row for a evicted. -/
theorem C5_six_append_scenario :
    run_adds
      [⟨.str "a", info_level, 0⟩, ⟨.str "b", error_level, 1⟩,
       ⟨.str "c", info_level, 2⟩, ⟨.str "d", error_level, 3⟩,
       ⟨.str "e", info_level, 4⟩, ⟨.str "f", error_level, 5⟩] =
      [mk_row 1 error_level (.str "b"), mk_row 2 info_level (.str "c"),
       mk_row 3 error_level (.str "d"), mk_row 4 info_level (.str "e"),
       mk_row 5 error_level (.str "f")] ∧
    [mk_row 1 error_level (.str "b"), mk_row 2 info_level (.str "c"),
       mk_row 3 error_level (.str "d"), mk_row 4 info_level (.str "e"),
       mk_row 5 error_level (.str "f")].length = max_msg_cnt := by
  constructor
  · rfl
  · rfl

/-- C6: msg_clear empties the log unconditionally: on any table it
leaves 0 entries and an empty rendered view, and on the empty table it
is a no-op that still yields the empty table. -/
theorem C6_clear_empties (tbl : List MsgRow) :
    msg_clear tbl = [] ∧ (msg_clear tbl).length = 0 ∧
      render_tbl (msg_clear tbl) = "" ∧ msg_clear [] = [] :=
  ⟨rfl, rfl, rfl, rfl⟩

/-- C7: msg_add and msg_clear are total: for every input, msg_add
appends exactly one new row at the end of the table, a missing message
argument (undefined) is accepted as-is and its cell renders literally
as the text undefined, and msg_clear succeeds on every table. -/
theorem C7_total_operations (tbl : List MsgRow) (msg level : JSVal) (now : Nat) :
    (∃ rest, msg_add tbl msg level now = rest ++ [mk_row now level msg]) ∧
      (msg_add tbl JSVal.undef level now).getLast? = some (mk_row now level JSVal.undef) ∧
      (mk_row now level JSVal.undef).message.render = "undefined" ∧
      msg_clear tbl = [] := by
  refine ⟨⟨msg_add_evict tbl.length tbl, rfl⟩, ?_, rfl, rfl⟩
  rw [msg_add]
  exact List.getLast?_concat _

/-- C8: entries are immutable once appended: every row present after a
msg_add call is either one of the rows of the old table, unchanged in
every field, or the one new row; the old rows survive as a contiguous
suffix of the old table, so later calls only remove entries from the
front, never modify one; and after msg_clear no row remains at all. -/
theorem C8_entry_immutability (tbl : List MsgRow) (msg level : JSVal) (now : Nat) :
    (∀ r ∈ msg_add tbl msg level now, r ∈ tbl ∨ r = mk_row now level msg) ∧
      (msg_add tbl msg level now).dropLast <:+ tbl ∧
      ∀ r : MsgRow, r ∉ msg_clear tbl := by
  refine ⟨?_, ?_, ?_⟩
  · intro r hr
    rw [msg_add_eq, List.mem_append, List.mem_singleton] at hr
    rcases hr with hr | rfl
    · exact Or.inl ((List.drop_suffix _ _).subset hr)
    · exact Or.inr rfl
  · rw [msg_add_eq, List.dropLast_concat]
    exact List.drop_suffix _ _
  · intro r hr
    simp [msg_clear] at hr

/-- C8 witness: applied to a concrete full table, the surviving second
row of the old table is recovered unchanged from the result of the
call. -/
theorem C8_entry_immutability_witness :
    (⟨1, .num 2, .str "b"⟩ : MsgRow) ∈
        [⟨0, .num 1, .str "a"⟩, ⟨1, .num 2, .str "b"⟩, ⟨2, .num 1, .str "c"⟩,
         ⟨3, .num 2, .str "d"⟩, ⟨4, .num 1, .str "e"⟩] ∨
      (⟨1, .num 2, .str "b"⟩ : MsgRow) = mk_row 5 (.num 2) (.str "f") :=
  (C8_entry_immutability
      [⟨0, .num 1, .str "a"⟩, ⟨1, .num 2, .str "b"⟩, ⟨2, .num 1, .str "c"⟩,
       ⟨3, .num 2, .str "d"⟩, ⟨4, .num 1, .str "e"⟩]
      (.str "f") (.num 2) 5).1
    ⟨1, .num 2, .str "b"⟩ (by decide)

/-- C9: a msg_add call that omits the level argument uses the declared
default level, the number 1, and that value is what the created row
holds in its level field; the failure branch of rate_item relies on
this default. -/
theorem C9_default_level (tbl : List MsgRow) (msg : JSVal) (now : Nat) :
    msg_add_default tbl msg now = msg_add tbl msg (.num 1) now ∧
      (rate_item_on_failure tbl msg now).getLast? = some (mk_row now (.num 1) msg) ∧
      (mk_row now (.num 1) msg).level = .num 1 := by
  refine ⟨rfl, ?_, rfl⟩
  rw [rate_item_on_failure, msg_add_default, msg_add]
  exact List.getLast?_concat _

/-- C10: from any starting table of size k, including oversized states
with k above 5, one msg_add call evicts exactly k - 4 oldest entries
(truncated subtraction, so none when k is below 5), keeps the rest in
order, and leaves exactly min (k + 1) 5 entries, restoring the
capacity bound in a single call. -/
theorem C10_oversized_restoration (tbl : List MsgRow) (msg level : JSVal) (now : Nat) :
    msg_add_evict tbl.length tbl = tbl.drop (tbl.length - (max_msg_cnt - 1)) ∧
      tbl.length - (msg_add_evict tbl.length tbl).length =
        tbl.length - (max_msg_cnt - 1) ∧
      (msg_add tbl msg level now).length = min (tbl.length + 1) max_msg_cnt := by
  refine ⟨msg_add_evict_eq_drop _ _, ?_, length_msg_add _ _ _ _⟩
  rw [msg_add_evict_eq_drop, List.length_drop]
  omega

end Headlines
